import Mathlib

/-!
Verification of the speech-trigger monitor (`speech_monitor.py`).

Shallow embedding. Python strings are Lean `String` (with an ASCII model of
`str.lower`), the set `FORBIDDEN_WORDS` is a `List String` (its iteration
order is the list order), the monitor object's mutable attributes form the
state `MState`, and the callback registry is a function
`String → Option Bool`: `none` means no callback is registered for the word,
`some false` a registered action that returns normally, and `some true` a
registered action that raises an exception when invoked.
-/

namespace SpeechMon

/-- Python `p` is-a-prefix-of `l` on character lists (used for `in`). -/
def strStartsWith : List Char → List Char → Bool
  | _, [] => true
  | [], _ :: _ => false
  | c :: cs, d :: ds => c == d && strStartsWith cs ds

/-- Python substring containment `sub in l` on character lists. -/
def containsSub : List Char → List Char → Bool
  | [], sub => sub.isEmpty
  | c :: cs, sub => strStartsWith (c :: cs) sub || containsSub cs sub

/-- Python `sub in s` for strings. -/
def strContains (s sub : String) : Bool := containsSub s.data sub.data

/-- Python `str.lower()` (ASCII model, as all configured words are ASCII). -/
def pyLower (s : String) : String := ⟨s.data.map Char.toLower⟩

/-- Python whitespace characters recognised by `str.split()` (ASCII model). -/
def pyIsSpace (c : Char) : Bool :=
  c == ' ' || c == '\t' || c == '\n' || c == '\r' || c == '\x0b' || c == '\x0c'

/-- Helper for `pySplit`: accumulates the current token reversed. -/
def splitAux : List Char → List Char → List (List Char)
  | [], acc => if acc.isEmpty then [] else [acc.reverse]
  | c :: cs, acc =>
    if pyIsSpace c then
      if acc.isEmpty then splitAux cs [] else acc.reverse :: splitAux cs []
    else splitAux cs (c :: acc)

/-- Python `str.split()` with no argument: split on whitespace runs, no empty tokens. -/
def pySplit (s : String) : List String := (splitAux s.data []).map (fun l => ⟨l⟩)

/-- Python `' '.join(words)`. -/
def joinSpaces (ws : List String) : String := String.intercalate " " ws

/-- Helper for Python `str.replace` with an empty pattern: interleave `new` after every char. -/
def sprinkle (new : List Char) : List Char → List Char
  | [] => []
  | c :: cs => c :: (new ++ sprinkle new cs)

/-- Helper for Python `str.replace` with a non-empty pattern: leftmost, non-overlapping. -/
def replList : List Char → List Char → List Char → List Char
  | [], _, _ => []
  | c :: cs, old, new =>
    if strStartsWith (c :: cs) old then
      new ++ replList (List.drop (old.length - 1) cs) old new
    else
      c :: replList cs old new
termination_by l => l.length
decreasing_by
  · simp only [List.length_drop, List.length_cons]
    omega
  · simp [List.length_cons]

/-- Python `s.replace(old, new)`. -/
def pyReplace (s old new : String) : String :=
  if old.data.isEmpty then ⟨new.data ++ sprinkle new.data s.data⟩
  else ⟨replList s.data old.data new.data⟩

/-- Condition of line 107 of `speech_monitor.py`, after Python comparison
chaining: `" "+word+" " in " "+current_line+" "` and `word` truthy and
`mode == "full"` and `"full" not in self.detected_words`. -/
def fullCond (detected : List String) (mode line w : String) : Bool :=
  strContains (" " ++ line ++ " ") (" " ++ w ++ " ") && !(w == "")
    && (mode == "full") && !(detected.contains "full")

/-- Condition of line 112: `word in current_line` and `word` truthy and
`mode == "partial"` and `"partial" not in self.detected_words`. -/
def partialCond (detected : List String) (mode line w : String) : Bool :=
  strContains line w && !(w == "")
    && (mode == "partial") && !(detected.contains "partial")

/-- A vocabulary word fires (is added to `new_detections`) on this line. -/
def fires (detected : List String) (mode line w : String) : Bool :=
  fullCond detected mode line w || partialCond detected mode line w

/-- Result of the word loop of `_process_partial_result_and_full_result`:
the `new_detections` local, the callbacks invoked (in order), and whether a
callback raised (aborting the loop). -/
structure ProcResult where
  dets : List String
  invoked : List String
  raised : Bool

/-- The `for word in self.FORBIDDEN_WORDS` loop of
`_process_partial_result_and_full_result` (lines 106-114): each word whose
condition holds is added to `new_detections` and `_execute_callbacks` is
called for it; a registered callback either returns (`some false`) or raises
(`some true`), and a raise propagates, aborting the loop. -/
def procWords (cb : String → Option Bool) (detected : List String)
    (mode line : String) : List String → ProcResult
  | [] => ⟨[], [], false⟩
  | w :: ws =>
    if fullCond detected mode line w then
      match cb w with
      | some true => ⟨[w], [w], true⟩
      | some false =>
        let r := procWords cb detected mode line ws
        ⟨w :: r.dets, w :: r.invoked, r.raised⟩
      | none =>
        let r := procWords cb detected mode line ws
        ⟨w :: r.dets, r.invoked, r.raised⟩
    else if partialCond detected mode line w then
      match cb w with
      | some true => ⟨[w], [w], true⟩
      | some false =>
        let r := procWords cb detected mode line ws
        ⟨w :: r.dets, w :: r.invoked, r.raised⟩
      | none =>
        let r := procWords cb detected mode line ws
        ⟨w :: r.dets, r.invoked, r.raised⟩
    else
      procWords cb detected mode line ws

/-- The DetectedSet of one utterance: the `new_detections` computed by the
word loop when no callback is registered (`self.detected_words` has just
been cleared, so the loop reads it as empty). -/
def detectedSet (vocab : List String) (mode text : String) : List String :=
  (procWords (fun _ => none) [] mode (pyLower text) vocab).dets

/-- The mutable attributes of the `SpeechMonitor` object that the claims
talk about, plus instrumentation of the external effects: `reads` counts
`self.stream.read` calls, `cleanups` counts completed `cleanup()` calls,
`resourcesAcquired` mirrors whether `initialize_audio_stream` has run, and
`invokedLog` records every callback invocation. -/
structure MState where
  detected_words : List String
  audio_list : List String
  resourcesAcquired : Bool
  reads : Nat
  cleanups : Nat
  invokedLog : List String

/-- A fresh monitor (`SpeechMonitor.__init__`). -/
def initM : MState := ⟨[], [], false, 0, 0, []⟩

/-- Outcome of one call to `_process_partial_result_and_full_result`:
the state afterwards, `some current_line` on normal return (`none` when a
callback raised and the exception propagated), the `new_detections` local,
and the callbacks invoked during the call. -/
structure UttOutcome where
  state : MState
  result : Option String
  detections : List String
  invoked : List String

/-- Lines 99-120 of `speech_monitor.py`: lowercase the text, clear
`self.detected_words`, run the word loop (which dispatches callbacks as it
detects), and on normal completion store the nonempty `new_detections` into
`self.detected_words` and return `current_line`. -/
def processUtterance (cb : String → Option Bool) (vocab : List String)
    (mode text : String) (st : MState) : UttOutcome :=
  let line := pyLower text
  let st0 := { st with detected_words := [] }
  let r := procWords cb st0.detected_words mode line vocab
  let st1 := { st0 with invokedLog := st0.invokedLog ++ r.invoked }
  if r.raised then
    ⟨st1, none, r.dets, r.invoked⟩
  else
    ⟨{ st1 with detected_words := if r.dets.isEmpty then st1.detected_words else r.dets },
      some line, r.dets, r.invoked⟩

/-- The `cleanup` method (lines 172-178): stops and closes the stream and
terminates the device; we count completed calls. -/
def cleanup (st : MState) : MState :=
  { st with cleanups := st.cleanups + 1, resourcesAcquired := false }

/-- What the external world delivers to one iteration of the `while True`
loop: `AcceptWaveform` false; `AcceptWaveform` true with a result object
whose `text` field is present (`some t`) or absent (`none`); a
`KeyboardInterrupt` during the read; another exception during the read. -/
inductive LoopEvent where
  | noResult
  | finalResult (text : Option String)
  | interrupt
  | readError
deriving DecidableEq

/-- How the `try` block ended. `outOfEvents` means the script of external
events ran out while the (in reality unbounded) loop was still running. -/
inductive ExitKind where
  | interrupted
  | errorCaught
  | outOfEvents
deriving DecidableEq

/-- Lines 155-159: `if "text" in result` followed by the two sequential
checks `if mode in ("full")` and `if mode in ("partial")` — each of which is
Python substring membership in the string `"full"` resp. `"partial"`, since
`("full")` is not a tuple — each assigning
`current_line = self._process_partial_result_and_full_result(...)`.
Returns `Except.error` with the partial state when a callback raised. -/
def handleText (cb : String → Option Bool) (vocab : List String)
    (mode t cur : String) (st : MState) : Except MState (MState × String) :=
  if strContains "full" mode then
    let o1 := processUtterance cb vocab mode t st
    match o1.result with
    | none => Except.error o1.state
    | some line1 =>
      if strContains "partial" mode then
        let o2 := processUtterance cb vocab mode t o1.state
        match o2.result with
        | none => Except.error o2.state
        | some line2 => Except.ok (o2.state, line2)
      else Except.ok (o1.state, line1)
  else
    if strContains "partial" mode then
      let o1 := processUtterance cb vocab mode t st
      match o1.result with
      | none => Except.error o1.state
      | some line1 => Except.ok (o1.state, line1)
    else Except.ok (st, cur)

/-- State carried by either constructor of a `handleText` result. -/
def exceptState : Except MState (MState × String) → MState
  | Except.error s => s
  | Except.ok (s, _) => s

/-- The `while True` loop (lines 148-162) with its exception handlers
(lines 165-170): each iteration reads a chunk; `KeyboardInterrupt` and other
exceptions end the loop, and the `finally` block runs `cleanup` exactly on
those paths; a finalized result appends `current_line` to `self.audio_list`
whether or not it carried text. -/
def runLoop (cb : String → Option Bool) (vocab : List String) (mode : String) :
    List LoopEvent → String → MState → ExitKind × MState
  | [], _, st => (ExitKind.outOfEvents, st)
  | e :: es, cur, st =>
    let st := { st with reads := st.reads + 1 }
    match e with
    | LoopEvent.interrupt => (ExitKind.interrupted, cleanup st)
    | LoopEvent.readError => (ExitKind.errorCaught, cleanup st)
    | LoopEvent.noResult => runLoop cb vocab mode es cur st
    | LoopEvent.finalResult txt? =>
      match txt? with
      | none =>
        runLoop cb vocab mode es cur { st with audio_list := st.audio_list ++ [cur] }
      | some t =>
        match handleText cb vocab mode t cur st with
        | Except.error st1 => (ExitKind.errorCaught, cleanup st1)
        | Except.ok (st1, cur1) =>
          runLoop cb vocab mode es cur1 { st1 with audio_list := st1.audio_list ++ [cur1] }

/-- How `monitor_speech` returned: `configError` is the `ValueError` of
line 140 propagating to the caller; `finished k` is a normal return after
the loop ended with `k`. -/
inductive MonitorResult where
  | configError
  | finished (k : ExitKind)
deriving DecidableEq

/-- The `monitor_speech` method (lines 127-170): acquire the audio resources
if not yet acquired, then validate the mode — raising `ValueError` (which
propagates, skipping the not-yet-entered `try`/`finally`) on an invalid
mode — then run the loop with `current_line = ""`. -/
def monitor_speech (cb : String → Option Bool) (vocab : List String)
    (mode : String) (events : List LoopEvent) (st : MState) :
    MonitorResult × MState :=
  let st := if st.resourcesAcquired then st else { st with resourcesAcquired := true }
  if !(mode == "full") && !(mode == "partial") then
    (MonitorResult.configError, st)
  else
    let r := runLoop cb vocab mode events "" st
    (MonitorResult.finished r.1, r.2)

/-- The per-token body of `_info`'s loop (lines 81-95): scan the vocabulary
in order; on `forbidden in lower_word`, wrap the whole token when it equals
`forbidden.lower()` and the mode is `"full"`, or replace the fragment when
the mode is `"partial"` (both followed by `break`); otherwise keep scanning. -/
def annotateToken (warn reset mode word : String) : List String → String
  | [] => word
  | f :: fs =>
    let lw := pyLower word
    if strContains lw f then
      if lw == pyLower f && mode == "full" then warn ++ word ++ reset
      else if mode == "partial" then pyReplace word f (warn ++ f ++ reset)
      else annotateToken warn reset mode word fs
    else annotateToken warn reset mode word fs

/-- The `_info` method (lines 76-97): split the sentence on whitespace,
rewrite each token by the loop above, and print the tokens joined by single
spaces; we model the printed line as the return value. -/
def info_line (vocab : List String) (warn reset mode text : String) : String :=
  joinSpaces ((pySplit text).map (fun w => annotateToken warn reset mode w vocab))

/-- Whitespace normalization: collapse whitespace runs to single spaces and
strip the ends (split-then-join). -/
def normalizeWhitespace (s : String) : String := joinSpaces (pySplit s)

/-! Helper lemmas -/

theorem strStartsWith_refl (l : List Char) : strStartsWith l l = true := by
  induction l with
  | nil => rfl
  | cons c cs ih => simp [strStartsWith, ih]

theorem containsSub_refl (l : List Char) : containsSub l l = true := by
  cases l with
  | nil => rfl
  | cons c cs => simp [containsSub, strStartsWith_refl]

theorem strStartsWith_length {l p : List Char} (h : strStartsWith l p = true) :
    p.length ≤ l.length := by
  induction l generalizing p with
  | nil => cases p with
    | nil => simp
    | cons d ds => simp [strStartsWith] at h
  | cons c cs ih =>
    cases p with
    | nil => simp
    | cons d ds =>
      simp only [strStartsWith, Bool.and_eq_true] at h
      simpa using Nat.succ_le_succ (ih h.2)

theorem containsSub_length {l sub : List Char} (h : containsSub l sub = true) :
    sub.length ≤ l.length := by
  induction l with
  | nil =>
    simp only [containsSub, List.isEmpty_iff] at h
    simp [h]
  | cons c cs ih =>
    simp only [containsSub, Bool.or_eq_true] at h
    rcases h with h | h
    · exact strStartsWith_length h
    · exact Nat.le_trans (ih h) (by simp)

theorem strContains_self (s : String) : strContains s s = true :=
  containsSub_refl s.data

/-- A word never fires on the empty line. -/
theorem fires_empty_line (d : List String) (mode w : String) :
    fires d mode "" w = false := by
  by_cases hw : w = ""
  · simp [fires, fullCond, partialCond, hw]
  · have hd : w.data ≠ [] := fun hd => hw (String.ext (by simpa using hd))
    have hfull : strContains "  " (" " ++ w ++ " ") = false := by
      rw [Bool.eq_false_iff]
      intro hc
      have h := containsSub_length hc
      simp only [String.data_append, List.length_append] at h
      simp at h
      exact hd (List.eq_nil_of_length_eq_zero h)
    have hpart : strContains "" w = false := by
      have h0 : ("" : String).data = [] := rfl
      simp only [strContains, h0, containsSub, List.isEmpty_iff]
      simpa using hd
    simp [fires, fullCond, partialCond, hfull, hpart]

/-- An empty word never fires (the `and word` truthiness check). -/
theorem fires_empty_word (d : List String) (mode line : String) :
    fires d mode line "" = false := by
  simp [fires, fullCond, partialCond]

/-- When no registered callback raises, the word loop returns the filter of
the vocabulary by the firing condition, invokes exactly the callbacks that
are registered for the detected words, and no exception escapes. -/
theorem procWords_spec (cb : String → Option Bool) (hcb : ∀ w, cb w ≠ some true)
    (d : List String) (mode line : String) (vs : List String) :
    procWords cb d mode line vs =
      ⟨vs.filter (fun w => fires d mode line w),
       (vs.filter (fun w => fires d mode line w)).filter (fun w => (cb w).isSome),
       false⟩ := by
  induction vs with
  | nil => rfl
  | cons w ws ih =>
    by_cases hf : fullCond d mode line w
    · have hfi : fires d mode line w = true := by simp [fires, hf]
      cases hc : cb w with
      | some b =>
        cases b with
        | true => exact absurd hc (hcb w)
        | false => simp [procWords, hf, hc, ih, List.filter, hfi]
      | none => simp [procWords, hf, hc, ih, List.filter, hfi]
    · by_cases hp : partialCond d mode line w
      · have hfi : fires d mode line w = true := by simp [fires, hp]
        cases hc : cb w with
        | some b =>
          cases b with
          | true => exact absurd hc (hcb w)
          | false => simp [procWords, hf, hp, hc, ih, List.filter, hfi]
        | none => simp [procWords, hf, hp, hc, ih, List.filter, hfi]
      · have hfi : fires d mode line w = false := by
          simp [fires, hf, hp]
        simp [procWords, hf, hp, ih, List.filter, hfi]

theorem detectedSet_eq_filter (vocab : List String) (mode text : String) :
    detectedSet vocab mode text =
      vocab.filter (fun w => fires [] mode (pyLower text) w) := by
  rw [detectedSet, procWords_spec (fun _ => none) (fun _ => by simp)]

theorem mem_detectedSet {vocab : List String} {mode text w : String} :
    w ∈ detectedSet vocab mode text ↔
      w ∈ vocab ∧ fires [] mode (pyLower text) w = true := by
  rw [detectedSet_eq_filter]
  exact List.mem_filter

/-- Processing an utterance touches no monitor attribute besides
`detected_words` and the callback-invocation log. -/
theorem processUtterance_frame (cb : String → Option Bool) (vocab : List String)
    (mode text : String) (st : MState) :
    (processUtterance cb vocab mode text st).state.audio_list = st.audio_list
    ∧ (processUtterance cb vocab mode text st).state.reads = st.reads
    ∧ (processUtterance cb vocab mode text st).state.cleanups = st.cleanups
    ∧ (processUtterance cb vocab mode text st).state.resourcesAcquired
        = st.resourcesAcquired := by
  unfold processUtterance
  dsimp only
  split <;> simp

/-- The word loop never raises when no registered callback raises. -/
theorem procWords_raised (cb : String → Option Bool) (hcb : ∀ w, cb w ≠ some true)
    (d : List String) (mode line : String) (vs : List String) :
    (procWords cb d mode line vs).raised = false := by
  rw [procWords_spec cb hcb]

/-- Normal completion of `_process_partial_result_and_full_result` when no
callback raises: it returns the lowercased text. -/
theorem processUtterance_result (cb : String → Option Bool)
    (hcb : ∀ w, cb w ≠ some true) (vocab : List String) (mode text : String)
    (st : MState) :
    (processUtterance cb vocab mode text st).result = some (pyLower text) := by
  unfold processUtterance
  dsimp only
  rw [procWords_spec cb hcb]
  simp

/-- On the empty vocabulary line the word loop does nothing. -/
theorem procWords_empty_line (cb : String → Option Bool) (d : List String)
    (mode : String) (vs : List String) :
    procWords cb d mode "" vs = ⟨[], [], false⟩ := by
  induction vs with
  | nil => rfl
  | cons w ws ih =>
    have h := fires_empty_line d mode w
    rw [fires, Bool.or_eq_false_iff] at h
    simp [procWords, h.1, h.2, ih]

/-- Processing the empty utterance: the empty line comes back, no word is
detected and no callback is invoked. -/
theorem processUtterance_empty (cb : String → Option Bool) (vocab : List String)
    (mode : String) (st : MState) :
    (processUtterance cb vocab mode "" st).result = some ""
    ∧ (processUtterance cb vocab mode "" st).detections = []
    ∧ (processUtterance cb vocab mode "" st).invoked = [] := by
  unfold processUtterance
  dsimp only
  have hl : pyLower "" = "" := rfl
  rw [hl, procWords_empty_line]
  simp

/-- Both arms of a `handleText` result preserve the cleanup counter. -/
theorem handleText_cleanups (cb : String → Option Bool) (vocab : List String)
    (mode t cur : String) (st : MState) :
    (exceptState (handleText cb vocab mode t cur st)).cleanups = st.cleanups := by
  have hf1 := (processUtterance_frame cb vocab mode t st).2.2.1
  have hf2 := (processUtterance_frame cb vocab mode t
    (processUtterance cb vocab mode t st).state).2.2.1
  unfold handleText
  dsimp only
  split
  · cases h1 : (processUtterance cb vocab mode t st).result with
    | none => simp only [h1, exceptState]; exact hf1
    | some line1 =>
      simp only [h1]
      split
      · cases h2 : (processUtterance cb vocab mode t
            (processUtterance cb vocab mode t st).state).result with
        | none => simp only [h2, exceptState]; rw [hf2, hf1]
        | some line2 => simp only [h2, exceptState]; rw [hf2, hf1]
      · simp only [exceptState]; exact hf1
  · split
    · cases h1 : (processUtterance cb vocab mode t st).result with
      | none => simp only [h1, exceptState]; exact hf1
      | some line1 => simp only [h1, exceptState]; exact hf1
    · simp [exceptState]

/-- When no registered callback raises, `handleText` completes normally and
touches neither the history nor the resource bookkeeping. -/
theorem handleText_ok (cb : String → Option Bool) (hcb : ∀ w, cb w ≠ some true)
    (vocab : List String) (mode t cur : String) (st : MState) :
    ∃ st1 cur1, handleText cb vocab mode t cur st = Except.ok (st1, cur1)
      ∧ st1.audio_list = st.audio_list ∧ st1.cleanups = st.cleanups
      ∧ st1.reads = st.reads ∧ st1.resourcesAcquired = st.resourcesAcquired := by
  have h1 := processUtterance_result cb hcb vocab mode t st
  have h2 := processUtterance_result cb hcb vocab mode t
    (processUtterance cb vocab mode t st).state
  have f1 := processUtterance_frame cb vocab mode t st
  have f2 := processUtterance_frame cb vocab mode t
    (processUtterance cb vocab mode t st).state
  unfold handleText
  dsimp only
  split
  · simp only [h1]
    split
    · simp only [h2]
      exact ⟨_, _, rfl, by rw [f2.1, f1.1], by rw [f2.2.2.1, f1.2.2.1],
        by rw [f2.2.1, f1.2.1], by rw [f2.2.2.2, f1.2.2.2]⟩
    · exact ⟨_, _, rfl, f1.1, f1.2.2.1, f1.2.1, f1.2.2.2⟩
  · split
    · simp only [h1]
      exact ⟨_, _, rfl, f1.1, f1.2.2.1, f1.2.1, f1.2.2.2⟩
    · exact ⟨_, _, rfl, rfl, rfl, rfl, rfl⟩

/-- The loop runs `cleanup` exactly once whenever it terminates by interrupt
or by a caught exception, and not at all while still running. -/
theorem runLoop_cleanups (cb : String → Option Bool) (vocab : List String)
    (mode : String) :
    ∀ (es : List LoopEvent) (cur : String) (st : MState),
    (runLoop cb vocab mode es cur st).2.cleanups =
      st.cleanups +
        (if (runLoop cb vocab mode es cur st).1 = ExitKind.outOfEvents then 0 else 1) := by
  intro es
  induction es with
  | nil => intro cur st; simp [runLoop]
  | cons e es ih =>
    intro cur st
    cases e with
    | interrupt => simp [runLoop, cleanup]
    | readError => simp [runLoop, cleanup]
    | noResult => simpa [runLoop] using ih cur { st with reads := st.reads + 1 }
    | finalResult txt? =>
      cases txt? with
      | none =>
        simpa [runLoop] using
          ih cur { st with reads := st.reads + 1, audio_list := st.audio_list ++ [cur] }
      | some t =>
        have hc := handleText_cleanups cb vocab mode t cur { st with reads := st.reads + 1 }
        simp only [runLoop]
        obtain ⟨r, hr⟩ : ∃ r, handleText cb vocab mode t cur { st with reads := st.reads + 1 } = r :=
          ⟨_, rfl⟩
        rw [hr] at hc
        simp only [hr]
        cases r with
        | error st1 =>
          simp only [exceptState] at hc
          simp [cleanup, hc]
        | ok p =>
          obtain ⟨st1, cur1⟩ := p
          simp only [exceptState] at hc
          simpa [hc] using ih cur1 { st1 with audio_list := st1.audio_list ++ [cur1] }

/-- Recognizer events that carry a finalized result object. -/
def isFinal : LoopEvent → Bool
  | LoopEvent.finalResult _ => true
  | _ => false

/-- While no callback raises and the stream neither errors nor is
interrupted, every finalized result appends exactly one history entry. -/
theorem runLoop_audio (cb : String → Option Bool) (hcb : ∀ w, cb w ≠ some true)
    (vocab : List String) (mode : String) :
    ∀ (es : List LoopEvent),
      (∀ e ∈ es, e ≠ LoopEvent.interrupt ∧ e ≠ LoopEvent.readError) →
    ∀ (cur : String) (st : MState),
    (runLoop cb vocab mode es cur st).2.audio_list.length =
      st.audio_list.length + es.countP isFinal := by
  intro es
  induction es with
  | nil => intro _ cur st; simp [runLoop]
  | cons e es ih =>
    intro hev cur st
    have hev' : ∀ e ∈ es, e ≠ LoopEvent.interrupt ∧ e ≠ LoopEvent.readError :=
      fun e he => hev e (List.mem_cons_of_mem _ he)
    cases e with
    | interrupt => exact absurd rfl (hev _ (List.mem_cons_self _ _)).1
    | readError => exact absurd rfl (hev _ (List.mem_cons_self _ _)).2
    | noResult =>
      simpa [runLoop, List.countP_cons, isFinal] using
        ih hev' cur { st with reads := st.reads + 1 }
    | finalResult txt? =>
      cases txt? with
      | none =>
        have := ih hev' cur { st with reads := st.reads + 1, audio_list := st.audio_list ++ [cur] }
        simp only [runLoop]
        simp [this, List.countP_cons, isFinal]
        omega
      | some t =>
        obtain ⟨st1, cur1, hok, ha, hcl, hr, hres⟩ :=
          handleText_ok cb hcb vocab mode t cur { st with reads := st.reads + 1 }
        have hal : st1.audio_list.length = st.audio_list.length := by simp [ha]
        have key := ih hev' cur1 { st1 with audio_list := st1.audio_list ++ [cur1] }
        simp only [runLoop, hok]
        simp [List.countP_cons, isFinal] at key ⊢
        omega

/-- Processing an utterance with empty text in full mode. -/
theorem handleText_empty_full (cb : String → Option Bool) (vocab : List String)
    (cur : String) (st : MState) :
    handleText cb vocab "full" "" cur st =
      Except.ok ((processUtterance cb vocab "full" "" st).state, "") := by
  have h1 := (processUtterance_empty cb vocab "full" st).1
  have ht : strContains "full" "full" = true := by decide
  have hp : strContains "partial" "full" = false := by decide
  unfold handleText
  dsimp only
  rw [ht, hp]
  simp [h1]

/-- Processing an utterance with empty text in partial mode. -/
theorem handleText_empty_partial (cb : String → Option Bool) (vocab : List String)
    (cur : String) (st : MState) :
    handleText cb vocab "partial" "" cur st =
      Except.ok ((processUtterance cb vocab "partial" "" st).state, "") := by
  have h1 := (processUtterance_empty cb vocab "partial" st).1
  have ht : strContains "full" "partial" = false := by decide
  have hp : strContains "partial" "partial" = true := by decide
  unfold handleText
  dsimp only
  rw [ht, hp]
  simp [h1]

/-- Once a fired word's callback raises, the loop over the remaining
vocabulary words is aborted: nothing after the raising word is examined or
invoked. -/
theorem procWords_abort (cb : String → Option Bool) (d : List String)
    (mode line : String) (vs₁ vs₂ : List String) (w : String)
    (h₁ : ∀ v ∈ vs₁, ¬(fires d mode line v = true ∧ cb v = some true))
    (hw : fires d mode line w = true) (hcb : cb w = some true) :
    (procWords cb d mode line (vs₁ ++ w :: vs₂)).invoked
        = (procWords cb d mode line vs₁).invoked ++ [w]
    ∧ (procWords cb d mode line (vs₁ ++ w :: vs₂)).raised = true := by
  induction vs₁ with
  | nil =>
    by_cases hf : fullCond d mode line w
    · simp [procWords, hf, hcb]
    · have hp : partialCond d mode line w = true := by
        rcases Bool.or_eq_true_iff.mp hw with h | h
        · exact absurd h hf
        · exact h
      simp [procWords, hf, hp, hcb]
  | cons v vs ih =>
    have hv := h₁ v (List.mem_cons_self _ _)
    have h₁' : ∀ x ∈ vs, ¬(fires d mode line x = true ∧ cb x = some true) :=
      fun x hx => h₁ x (List.mem_cons_of_mem _ hx)
    have ihs := ih h₁'
    by_cases hf : fullCond d mode line v
    · have hfi : fires d mode line v = true := by simp [fires, hf]
      cases hcv : cb v with
      | none => simpa [procWords, hf, hcv] using ihs
      | some b =>
        cases b with
        | true => exact absurd ⟨hfi, hcv⟩ hv
        | false => simpa [procWords, hf, hcv] using ihs
    · by_cases hp : partialCond d mode line v
      · have hfi : fires d mode line v = true := by simp [fires, hp]
        cases hcv : cb v with
        | none => simpa [procWords, hf, hp, hcv] using ihs
        | some b =>
          cases b with
          | true => exact absurd ⟨hfi, hcv⟩ hv
          | false => simpa [procWords, hf, hp, hcv] using ihs
      · simpa [procWords, hf, hp] using ihs

/-- In full mode a token is wrapped exactly when it is a case-insensitive
exact match of some (lowercase) vocabulary word. -/
theorem annotateToken_full_spec (warn reset w : String) (vs : List String)
    (hvs : ∀ f ∈ vs, pyLower f = f) :
    annotateToken warn reset "full" w vs =
      if vs.any (fun f => pyLower w == f) then warn ++ w ++ reset else w := by
  induction vs with
  | nil => simp [annotateToken]
  | cons f fs ih =>
    have hf := hvs f (List.mem_cons_self f fs)
    have hfs : ∀ g ∈ fs, pyLower g = g := fun g hg => hvs g (List.mem_cons_of_mem _ hg)
    by_cases hc : strContains (pyLower w) f = true
    · by_cases he : pyLower w = f
      · simp [annotateToken, hc, hf, he, List.any_cons, strContains_self]
      · simp [annotateToken, hc, hf, he, ih hfs, List.any_cons]
    · have he : (pyLower w == f) = false := by
        rw [Bool.eq_false_iff]
        intro hb
        have hq : pyLower w = f := by simpa using hb
        rw [hq] at hc
        exact hc (strContains_self f)
      simp [annotateToken, hc, he, ih hfs, List.any_cons]

/-- In full mode a token that is no exact case-insensitive match of any
vocabulary word is left unmodified. -/
theorem annotateToken_nomatch_full (warn reset w : String) (vs : List String)
    (h : ∀ f ∈ vs, pyLower w ≠ pyLower f) :
    annotateToken warn reset "full" w vs = w := by
  induction vs with
  | nil => simp [annotateToken]
  | cons f fs ih =>
    have hf := h f (List.mem_cons_self f fs)
    have hfs : ∀ g ∈ fs, pyLower w ≠ pyLower g := fun g hg => h g (List.mem_cons_of_mem _ hg)
    by_cases hc : strContains (pyLower w) f = true
    · have he : (pyLower w == pyLower f) = false := by simp [hf]
      simp [annotateToken, hc, he, ih hfs]
    · simp [annotateToken, hc, ih hfs]

/-- In partial mode a token containing no vocabulary word is left
unmodified. -/
theorem annotateToken_nomatch_partial (warn reset w : String) (vs : List String)
    (h : ∀ f ∈ vs, strContains (pyLower w) f = false) :
    annotateToken warn reset "partial" w vs = w := by
  induction vs with
  | nil => simp [annotateToken]
  | cons f fs ih =>
    have hf := h f (List.mem_cons_self f fs)
    have hfs : ∀ g ∈ fs, strContains (pyLower w) g = false :=
      fun g hg => h g (List.mem_cons_of_mem _ hg)
    simp [annotateToken, hf, ih hfs]

/-- Firing condition restricted to full mode. -/
theorem fires_full (line w : String) (hw : w ≠ "") :
    fires [] "full" line w = strContains (" " ++ line ++ " ") (" " ++ w ++ " ") := by
  simp [fires, fullCond, partialCond, hw]

/-- Firing condition restricted to partial mode. -/
theorem fires_partial (line w : String) (hw : w ≠ "") :
    fires [] "partial" line w = strContains line w := by
  simp [fires, fullCond, partialCond, hw]

/-- Example callback registry: the `attack` action raises when invoked, the
`drink` action returns normally, and no other word has an action. -/
def exCb : String → Option Bool :=
  fun w => if w == "attack" then some true else if w == "drink" then some false else none

/-- Example callback registry in which the single registered action (for
`attack`) returns normally. -/
def exCb2 : String → Option Bool :=
  fun w => if w == "attack" then some false else none

theorem exCb2_no_raise : ∀ w, exCb2 w ≠ some true := by
  intro w
  unfold exCb2
  split <;> simp

/-! Claim theorems -/

/-- C1: for every utterance text and every non-empty trigger word of the
vocabulary, full (Whole) mode detects the trigger iff the space-padded
lowercased text contains the space-padded trigger, and partial (Substring)
mode detects it iff it occurs anywhere in the lowercased text; in
particular text `rightful` with vocabulary `right` detects nothing in Whole
mode and `right` in Substring mode. -/
theorem c1_matcher_mode_semantics (vocab : List String) (text w : String)
    (hw : w ∈ vocab) (hne : w ≠ "") :
    (w ∈ detectedSet vocab "full" text ↔
        strContains (" " ++ pyLower text ++ " ") (" " ++ w ++ " ") = true)
    ∧ (w ∈ detectedSet vocab "partial" text ↔ strContains (pyLower text) w = true)
    ∧ detectedSet ["right"] "full" "rightful" = []
    ∧ detectedSet ["right"] "partial" "rightful" = ["right"] := by
  refine ⟨?_, ?_, by decide, by decide⟩
  · rw [mem_detectedSet, fires_full (pyLower text) w hne]
    simp [hw]
  · rw [mem_detectedSet, fires_partial (pyLower text) w hne]
    simp [hw]

theorem c1_matcher_mode_semantics_witness :
    ("right" ∈ (["right"] : List String) ∧ ("right" : String) ≠ "")
    ∧ (("right" ∈ detectedSet ["right"] "full" "go right" ↔
          strContains (" " ++ pyLower "go right" ++ " ") (" " ++ "right" ++ " ") = true)
      ∧ ("right" ∈ detectedSet ["right"] "partial" "go right" ↔
          strContains (pyLower "go right") "right" = true)
      ∧ detectedSet ["right"] "full" "rightful" = []
      ∧ detectedSet ["right"] "partial" "rightful" = ["right"]) :=
  ⟨⟨by decide, by decide⟩,
    c1_matcher_mode_semantics ["right"] "go right" "right" (by decide) (by decide)⟩

/-- C2 counterexample: with both `attack` and `drink` in the utterance and
both having registered actions, the `attack` action raises, and the sibling
`drink` action of the same DetectedSet is never invoked — refuting the
claim that an action failure does not abort processing of the remaining
triggers. -/
theorem c2_counterexample :
    (processUtterance exCb ["attack", "drink"] "full" "attack and drink" initM).invoked
        = ["attack"]
    ∧ ((processUtterance exCb ["attack", "drink"] "full" "attack and drink"
          initM).invoked).contains "drink" = false
    ∧ detectedSet ["attack", "drink"] "full" "attack and drink" = ["attack", "drink"]
    ∧ exCb "drink" = some false := by decide

/-- C2 (amended): an action that raises aborts the word loop: the exception
propagates, the words after the raising one are never examined, their
actions are never invoked, and the processing call does not return. -/
theorem c2_raise_aborts_siblings (cb : String → Option Bool) (mode text : String)
    (st : MState) (vs₁ vs₂ : List String) (w : String)
    (h₁ : ∀ v ∈ vs₁, ¬(fires [] mode (pyLower text) v = true ∧ cb v = some true))
    (hw : fires [] mode (pyLower text) w = true) (hcb : cb w = some true) :
    (processUtterance cb (vs₁ ++ w :: vs₂) mode text st).invoked
        = (procWords cb [] mode (pyLower text) vs₁).invoked ++ [w]
    ∧ (processUtterance cb (vs₁ ++ w :: vs₂) mode text st).result = none := by
  have h := procWords_abort cb [] mode (pyLower text) vs₁ vs₂ w h₁ hw hcb
  unfold processUtterance
  dsimp only
  rw [h.2]
  simp [h.1]

theorem c2_raise_aborts_siblings_witness :
    ((∀ v ∈ ([] : List String),
        ¬(fires [] "full" (pyLower "attack and drink") v = true ∧ exCb v = some true))
      ∧ fires [] "full" (pyLower "attack and drink") "attack" = true
      ∧ exCb "attack" = some true)
    ∧ ((processUtterance exCb ([] ++ "attack" :: ["drink"]) "full" "attack and drink"
          initM).invoked
        = (procWords exCb [] "full" (pyLower "attack and drink") []).invoked ++ ["attack"]
      ∧ (processUtterance exCb ([] ++ "attack" :: ["drink"]) "full" "attack and drink"
          initM).result = none) :=
  ⟨⟨by simp, by decide, by decide⟩,
    c2_raise_aborts_siblings exCb "full" "attack and drink" initM [] ["drink"] "attack"
      (by simp) (by decide) (by decide)⟩

/-- C3 counterexample: computing the DetectedSet is not free of action
invocations — processing the utterance `time to attack` invokes the
registered `attack` action during matching. -/
theorem c3_counterexample :
    (processUtterance exCb2 ["attack"] "full" "time to attack" initM).invoked = ["attack"]
    ∧ (processUtterance exCb2 ["attack"] "full" "time to attack"
        initM).state.invokedLog = ["attack"] := by decide

/-- C3 (amended): the DetectedSet is a pure function of
(text, mode, TriggerSet) and processing touches no monitor state besides
`detected_words` and the invocation log, but matching and dispatch are
fused: each detected trigger's registered action is invoked during the same
pass (shown for non-raising registries). -/
theorem c3_detection_pure_but_dispatches (cb : String → Option Bool)
    (vocab : List String) (mode text : String) (st : MState)
    (hcb : ∀ w, cb w ≠ some true) :
    (processUtterance cb vocab mode text st).detections = detectedSet vocab mode text
    ∧ (processUtterance cb vocab mode text st).invoked
        = (detectedSet vocab mode text).filter (fun w => (cb w).isSome)
    ∧ (processUtterance cb vocab mode text st).state.audio_list = st.audio_list
    ∧ (processUtterance cb vocab mode text st).state.reads = st.reads
    ∧ (processUtterance cb vocab mode text st).state.cleanups = st.cleanups
    ∧ (processUtterance cb vocab mode text st).state.resourcesAcquired
        = st.resourcesAcquired := by
  have hfr := processUtterance_frame cb vocab mode text st
  refine ⟨?_, ?_, hfr.1, hfr.2.1, hfr.2.2.1, hfr.2.2.2⟩
  · unfold processUtterance
    dsimp only
    rw [procWords_spec cb hcb, detectedSet_eq_filter]
    simp
  · unfold processUtterance
    dsimp only
    rw [procWords_spec cb hcb, detectedSet_eq_filter]
    simp

theorem c3_detection_pure_but_dispatches_witness :
    (∀ w, exCb2 w ≠ some true)
    ∧ ((processUtterance exCb2 ["attack"] "full" "go attack" initM).detections
          = detectedSet ["attack"] "full" "go attack"
      ∧ (processUtterance exCb2 ["attack"] "full" "go attack" initM).invoked
          = (detectedSet ["attack"] "full" "go attack").filter
              (fun w => (exCb2 w).isSome)
      ∧ (processUtterance exCb2 ["attack"] "full" "go attack" initM).state.audio_list
          = initM.audio_list
      ∧ (processUtterance exCb2 ["attack"] "full" "go attack" initM).state.reads
          = initM.reads
      ∧ (processUtterance exCb2 ["attack"] "full" "go attack" initM).state.cleanups
          = initM.cleanups
      ∧ (processUtterance exCb2 ["attack"] "full" "go attack"
          initM).state.resourcesAcquired = initM.resourcesAcquired) :=
  ⟨exCb2_no_raise,
    c3_detection_pure_but_dispatches exCb2 ["attack"] "full" "go attack" initM
      exCb2_no_raise⟩

/-- C4: the DetectedSet of an utterance is independent of previously
detected words: processing the same (text, mode, vocabulary) again,
starting from the state left by the first call, detects the same triggers,
invokes the same actions again, and returns the same result. -/
theorem c4_per_utterance_reset (cb : String → Option Bool) (vocab : List String)
    (mode text : String) (st : MState) :
    (processUtterance cb vocab mode text
        (processUtterance cb vocab mode text st).state).detections
      = (processUtterance cb vocab mode text st).detections
    ∧ (processUtterance cb vocab mode text
        (processUtterance cb vocab mode text st).state).invoked
      = (processUtterance cb vocab mode text st).invoked
    ∧ (processUtterance cb vocab mode text
        (processUtterance cb vocab mode text st).state).result
      = (processUtterance cb vocab mode text st).result
    ∧ (processUtterance cb vocab mode text
        (processUtterance cb vocab mode text st).state).state.detected_words
      = (processUtterance cb vocab mode text st).state.detected_words := by
  refine ⟨?_, ?_, ?_, ?_⟩ <;>
    (unfold processUtterance; dsimp only; split <;> rfl)

/-- C5: any mode other than `full` or `partial` makes `monitor_speech`
raise the `ValueError` before the loop runs: no audio chunk is read, no
history entry is appended, no cleanup is attempted, and the call reports
the configuration error instead of running. -/
theorem c5_invalid_mode_rejected (cb : String → Option Bool) (vocab : List String)
    (mode : String) (events : List LoopEvent) (st : MState)
    (h1 : mode ≠ "full") (h2 : mode ≠ "partial") :
    (monitor_speech cb vocab mode events st).1 = MonitorResult.configError
    ∧ (monitor_speech cb vocab mode events st).2.reads = st.reads
    ∧ (monitor_speech cb vocab mode events st).2.audio_list = st.audio_list
    ∧ (monitor_speech cb vocab mode events st).2.cleanups = st.cleanups := by
  have hcond : (!(mode == "full") && !(mode == "partial")) = true := by
    simp [h1, h2]
  unfold monitor_speech
  dsimp only
  rw [hcond]
  refine ⟨rfl, ?_, ?_, ?_⟩ <;> (simp only [reduceIte]; split <;> rfl)

theorem c5_invalid_mode_rejected_witness :
    (("strict" : String) ≠ "full" ∧ ("strict" : String) ≠ "partial")
    ∧ ((monitor_speech (fun _ => none) []
          "strict" [LoopEvent.finalResult (some "hi")] initM).1
        = MonitorResult.configError
      ∧ (monitor_speech (fun _ => none) []
          "strict" [LoopEvent.finalResult (some "hi")] initM).2.reads = initM.reads
      ∧ (monitor_speech (fun _ => none) []
          "strict" [LoopEvent.finalResult (some "hi")] initM).2.audio_list
        = initM.audio_list
      ∧ (monitor_speech (fun _ => none) []
          "strict" [LoopEvent.finalResult (some "hi")] initM).2.cleanups
        = initM.cleanups) :=
  ⟨⟨by decide, by decide⟩,
    c5_invalid_mode_rejected (fun _ => none) [] "strict"
      [LoopEvent.finalResult (some "hi")] initM (by decide) (by decide)⟩

/-- C6 counterexample: starting with an invalid mode acquires the audio
resources (line 135 runs before the mode check of line 139) and then the
`ValueError` propagates outside the `try`/`finally`, so the monitor ends
with resources acquired and zero cleanups — refuting the claim that every
termination path after resource acquisition releases them. -/
theorem c6_counterexample :
    (monitor_speech (fun _ => none) [] "strict" [] initM).1 = MonitorResult.configError
    ∧ (monitor_speech (fun _ => none) [] "strict" [] initM).2.resourcesAcquired = true
    ∧ (monitor_speech (fun _ => none) [] "strict" [] initM).2.cleanups = 0 := by decide

/-- C6 (amended): on every termination of the monitor loop itself — user
interrupt, stream read error, or an exception during utterance processing —
`cleanup` runs exactly once; only the invalid-mode `ValueError` raised
before the loop skips it. -/
theorem c6_cleanup_on_loop_exit (cb : String → Option Bool) (vocab : List String)
    (mode : String) (events : List LoopEvent) (st : MState) (k : ExitKind)
    (h : (monitor_speech cb vocab mode events st).1 = MonitorResult.finished k)
    (hk : k ≠ ExitKind.outOfEvents) :
    (monitor_speech cb vocab mode events st).2.cleanups = st.cleanups + 1 := by
  unfold monitor_speech at h ⊢
  dsimp only at h ⊢
  split at h
  · exact absurd h (by simp)
  · next hcond =>
    rw [if_neg hcond]
    simp only [MonitorResult.finished.injEq] at h
    rw [runLoop_cleanups, h, if_neg hk]
    have hcl : (if st.resourcesAcquired then st
        else { st with resourcesAcquired := true }).cleanups = st.cleanups := by
      split <;> rfl
    rw [hcl]

theorem c6_cleanup_on_loop_exit_witness :
    ((monitor_speech (fun _ => none) [] "full" [LoopEvent.interrupt] initM).1
        = MonitorResult.finished ExitKind.interrupted
      ∧ ExitKind.interrupted ≠ ExitKind.outOfEvents)
    ∧ (monitor_speech (fun _ => none) [] "full" [LoopEvent.interrupt] initM).2.cleanups
        = initM.cleanups + 1 :=
  ⟨⟨by decide, by decide⟩,
    c6_cleanup_on_loop_exit (fun _ => none) [] "full" [LoopEvent.interrupt] initM
      ExitKind.interrupted (by decide) (by decide)⟩

/-- C7: an empty-string trigger word is never detected under any text and
mode; the empty utterance yields an empty DetectedSet with no action
invoked; and a finalized empty-text result appends exactly one
empty-string entry to the history in either valid mode. -/
theorem c7_empty_edge_cases (vocab : List String) (mode text : String)
    (cb : String → Option Bool) (cur : String) (st : MState) :
    detectedSet vocab mode "" = []
    ∧ (detectedSet vocab mode text).contains "" = false
    ∧ (processUtterance cb vocab mode "" st).invoked = []
    ∧ (processUtterance cb vocab mode "" st).detections = []
    ∧ (runLoop cb vocab "full" [LoopEvent.finalResult (some "")] cur st).2.audio_list
        = st.audio_list ++ [""]
    ∧ (runLoop cb vocab "partial" [LoopEvent.finalResult (some "")] cur st).2.audio_list
        = st.audio_list ++ [""] := by
  refine ⟨?_, ?_, (processUtterance_empty cb vocab mode st).2.2,
    (processUtterance_empty cb vocab mode st).2.1, ?_, ?_⟩
  · rw [detectedSet_eq_filter, show pyLower "" = "" from rfl]
    exact List.filter_eq_nil_iff.mpr (fun w _ => by simp [fires_empty_line])
  · rw [Bool.eq_false_iff]
    intro hc
    have hm : "" ∈ detectedSet vocab mode text := List.elem_iff.mp hc
    rw [mem_detectedSet] at hm
    have hfi := hm.2
    rw [fires_empty_word] at hfi
    exact Bool.false_ne_true hfi
  · have hf := (processUtterance_frame cb vocab "full" "" { st with reads := st.reads + 1 }).1
    simp only [runLoop, handleText_empty_full]
    simp [hf]
  · have hf := (processUtterance_frame cb vocab "partial" ""
      { st with reads := st.reads + 1 }).1
    simp only [runLoop, handleText_empty_partial]
    simp [hf]

/-- C8: in full (Whole) mode the annotated line wraps exactly the
whitespace tokens that are an exact case-insensitive match of some
(lowercase) vocabulary word, leaves every other token unmodified, and
preserves token order with single-space separation; on
vocabulary `left`, `right` and text `turn left now` only the token
`left` is wrapped. -/
theorem c8_whole_mode_annotation (vocab : List String) (warn reset text : String)
    (hvs : ∀ f ∈ vocab, pyLower f = f) :
    info_line vocab warn reset "full" text
      = joinSpaces ((pySplit text).map
          (fun tok => if vocab.any (fun f => pyLower tok == f)
            then warn ++ tok ++ reset else tok))
    ∧ info_line ["left", "right"] warn reset "full" "turn left now"
        = joinSpaces ["turn", warn ++ "left" ++ reset, "now"] := by
  constructor
  · unfold info_line
    congr 1
    exact List.map_congr_left
      (fun w _ => annotateToken_full_spec warn reset w vocab hvs)
  · rfl

theorem c8_whole_mode_annotation_witness :
    (∀ f ∈ (["left", "right"] : List String), pyLower f = f)
    ∧ (info_line ["left", "right"] "<" ">" "full" "turn left now"
        = joinSpaces ((pySplit "turn left now").map
            (fun tok => if (["left", "right"] : List String).any
                (fun f => pyLower tok == f)
              then "<" ++ tok ++ ">" else tok))
      ∧ info_line ["left", "right"] "<" ">" "full" "turn left now"
          = joinSpaces ["turn", "<" ++ "left" ++ ">", "now"]) :=
  ⟨by decide, c8_whole_mode_annotation ["left", "right"] "<" ">" "turn left now"
    (by decide)⟩

/-- C9: when no whitespace token of the text matches any vocabulary word
under the given mode (exact case-insensitive equality in full mode,
substring containment in partial mode), the annotated line is the text
itself up to whitespace normalization. -/
theorem c9_no_match_identity (vocab : List String) (warn reset text : String) :
    ((∀ tok ∈ pySplit text, ∀ f ∈ vocab, pyLower tok ≠ pyLower f) →
        info_line vocab warn reset "full" text = normalizeWhitespace text)
    ∧ ((∀ tok ∈ pySplit text, ∀ f ∈ vocab, strContains (pyLower tok) f = false) →
        info_line vocab warn reset "partial" text = normalizeWhitespace text) := by
  constructor
  · intro h
    unfold info_line normalizeWhitespace
    congr 1
    have hmap : (pySplit text).map (fun w => annotateToken warn reset "full" w vocab)
        = (pySplit text).map id :=
      List.map_congr_left
        (fun tok ht => annotateToken_nomatch_full warn reset tok vocab (h tok ht))
    rw [hmap, List.map_id]
  · intro h
    unfold info_line normalizeWhitespace
    congr 1
    have hmap : (pySplit text).map (fun w => annotateToken warn reset "partial" w vocab)
        = (pySplit text).map id :=
      List.map_congr_left
        (fun tok ht => annotateToken_nomatch_partial warn reset tok vocab (h tok ht))
    rw [hmap, List.map_id]

theorem c9_no_match_identity_witness :
    (∀ tok ∈ pySplit " hello   world ", ∀ f ∈ (["run"] : List String),
        pyLower tok ≠ pyLower f)
    ∧ info_line ["run"] "<" ">" "full" " hello   world "
        = normalizeWhitespace " hello   world " :=
  ⟨by decide, (c9_no_match_identity ["run"] "<" ">" " hello   world ").1 (by decide)⟩

/-- C10: while the loop keeps running (no interrupt, no read error, no
raising action), every finalized recognition result appends exactly one
history entry; a result without a text field appends the previous
`current_line` again unchanged, which is initially the empty string. -/
theorem c10_history_per_final_result (cb : String → Option Bool)
    (vocab : List String) (mode : String) (events : List LoopEvent)
    (cur : String) (st : MState)
    (hcb : ∀ w, cb w ≠ some true)
    (hev : ∀ e ∈ events, e ≠ LoopEvent.interrupt ∧ e ≠ LoopEvent.readError) :
    (runLoop cb vocab mode events cur st).2.audio_list.length
        = st.audio_list.length + events.countP isFinal
    ∧ runLoop cb vocab mode (LoopEvent.finalResult none :: events) cur st
        = runLoop cb vocab mode events cur
            { st with reads := st.reads + 1, audio_list := st.audio_list ++ [cur] }
    ∧ (monitor_speech cb vocab "full" [LoopEvent.finalResult none] initM).2.audio_list
        = [""] :=
  ⟨runLoop_audio cb hcb vocab mode events hev cur st, rfl, rfl⟩

theorem c10_history_per_final_result_witness :
    ((∀ w, (fun (_ : String) => (none : Option Bool)) w ≠ some true)
      ∧ (∀ e ∈ [LoopEvent.finalResult (some "i run now"), LoopEvent.noResult,
            LoopEvent.finalResult none],
          e ≠ LoopEvent.interrupt ∧ e ≠ LoopEvent.readError))
    ∧ ((runLoop (fun _ => none) ["run"] "full"
          [LoopEvent.finalResult (some "i run now"), LoopEvent.noResult,
            LoopEvent.finalResult none] "" initM).2.audio_list.length
        = initM.audio_list.length
          + List.countP isFinal
              [LoopEvent.finalResult (some "i run now"), LoopEvent.noResult,
                LoopEvent.finalResult none]
      ∧ runLoop (fun _ => none) ["run"] "full"
            (LoopEvent.finalResult none
              :: [LoopEvent.finalResult (some "i run now"), LoopEvent.noResult,
                  LoopEvent.finalResult none]) "" initM
          = runLoop (fun _ => none) ["run"] "full"
              [LoopEvent.finalResult (some "i run now"), LoopEvent.noResult,
                LoopEvent.finalResult none] ""
              { initM with reads := initM.reads + 1, audio_list := initM.audio_list ++ [""] }
      ∧ (monitor_speech (fun _ => none) ["run"] "full"
          [LoopEvent.finalResult none] initM).2.audio_list = [""]) :=
  ⟨⟨fun _ => by simp, by decide⟩,
    c10_history_per_final_result (fun _ => none) ["run"] "full"
      [LoopEvent.finalResult (some "i run now"), LoopEvent.noResult,
        LoopEvent.finalResult none] "" initM (fun _ => by simp) (by decide)⟩

end SpeechMon
